import Mathlib

/-!
Shallow embedding of `src/agent_core/config.py`: the `Config` base class used
to declare, populate and validate configuration records.

The Python class stores field values in `__slots__`-backed attributes.  We
model:
  * Python values by an inductive `PyVal` with a distinguished `pynone`
    constructor for Python's `None`;
  * the per-class mutable `__slots__` class attribute by a `ClassState`
    assigning each class name its current slots tuple;
  * `Config.__init__`'s slots merging (which walks `inspect.getmro` — most
    derived class first — and rebinds the concrete class's `__slots__`) by
    `configInit`;
  * an instance's slot storage by `Fields : String → Option PyVal`
    (`Option.none` = slot never set);
  * incoming option dictionaries by `Options : String → Option PyVal`
    (`Option.none` = key absent, `some pynone` = key present mapping to
    Python `None`);
  * the external `schema.Schema(...).validate` collaborator by an `Engine`
    parameter returning either a normalized dictionary or the list of reason
    strings (`err.autos`), following the spec's external-interface contract;
  * a raised `InvalidConfigurationException` by a `some message` component in
    the result of `applyConfig` / `from_options`.
-/

namespace AgentCore

/-- Python runtime values, with Python's `None` as `pynone`. -/
inductive PyVal : Type where
  | pynone : PyVal
  | pystr : String → PyVal
  | pyint : Int → PyVal
  | pybool : Bool → PyVal
  | pylist : List PyVal → PyVal
  deriving Repr

/-- Python's `value is None` identity test (the only emptiness check the
source performs). -/
def PyVal.isNone : PyVal → Bool
  | .pynone => true
  | _ => false

/-- The current value of each class's `__slots__` class attribute, keyed by
class name.  `Config.__init__` mutates this state. -/
abbrev ClassState := String → List String

/-- Slot storage of one record instance: `Option.none` means the slot was
never assigned (reading it raises `AttributeError` in Python, absorbed by the
`getattr(..., None)` default). -/
abbrev Fields := String → Option PyVal

/-- An incoming options dictionary: `Option.none` models `k not in options`,
`some v` models `options[k] == v` (so `some PyVal.pynone` is a key that is
present but maps to Python `None`). -/
abbrev Options := String → Option PyVal

/-- A freshly constructed instance has no slot set. -/
def emptyFields : Fields := fun _ => Option.none

/-- `Config.__init__`: walks `inspect.getmro(self.__class__)` (the `mro`
argument, most-derived class first, restricted to the classes that have a
`__slots__` attribute), concatenates every class's *current* `__slots__`, and
rebinds the concrete class's `__slots__` to that concatenation followed by
the concrete class's own current `__slots__` value:

    self.__class__.__slots__ = (*_parent_slots_gen(self), *self.__class__.__slots__)
-/
def configInit (mro : List String) (st : ClassState) : ClassState :=
  match mro with
  | [] => st
  | self :: _ =>
      fun c => if c = self then (mro.map st).flatten ++ st self else st c

/-- `Config.__getitem__`: `getattr(self, index, None)` — the stored value if
the slot is set, Python `None` otherwise. -/
def getitem (fs : Fields) (index : String) : PyVal :=
  (fs index).getD PyVal.pynone

/-- One iteration of the loop body of `Config.update`:
`if slot in options and options[slot] is not None: setattr(self, slot, options[slot])`. -/
def updateSlot (options : Options) (fs : Fields) (slot : String) : Fields :=
  match options slot with
  | some v =>
      if v.isNone then fs
      else fun n => if n = slot then some v else fs n
  | Option.none => fs

/-- `Config.update`: iterate over the instance's current `__slots__` tuple,
copying each option value that is present and not `None`. -/
def update (slots : List String) (fs : Fields) (options : Options) : Fields :=
  slots.foldl (updateSlot options) fs

/-- The generator `_dict_gen` inside `Config.__dict__`: yields
`(slot, getattr(self, slot, None))` for each slot whose value is not `None`. -/
def dictGenList (slots : List String) (fs : Fields) : List (String × PyVal) :=
  slots.filterMap fun slot =>
    match fs slot with
    | some v => if v.isNone then Option.none else some (slot, v)
    | Option.none => Option.none

/-- Python `dict(pairs)` insertion step: an existing key's value is replaced
in place (keeping its original position), a new key is appended. -/
def dictInsert (d : List (String × PyVal)) (k : String) (v : PyVal) :
    List (String × PyVal) :=
  if d.any (fun p => p.1 = k) then d.map (fun p => if p.1 = k then (k, v) else p)
  else d ++ [(k, v)]

/-- Python `dict(pairs)` built from an (ordered, possibly duplicated-key)
list of pairs. -/
def pyDict (l : List (String × PyVal)) : List (String × PyVal) :=
  l.foldl (fun d p => dictInsert d p.1 p.2) []

/-- `Config.__dict__`: `dict(_dict_gen(self))`, an insertion-ordered mapping
of the non-`None` slots. -/
def dictProjection (slots : List String) (fs : Fields) : List (String × PyVal) :=
  pyDict (dictGenList slots fs)

/-- The external schema-validation engine (`schema.Schema(SCHEMA).validate`),
per the spec's external-interface contract: success returns the normalized
dictionary (defaults applied), failure returns the ordered reason strings
(`err.autos`). -/
abbrev Engine := List (String × PyVal) → Except (List String) (List (String × PyVal))

/-- Turn the dictionary returned by the engine back into an `Options`
lookup so it can be fed through `update`. -/
def optionsOfDict (d : List (String × PyVal)) : Options :=
  fun k => (d.find? (fun p => p.1 = k)).map (fun p => p.2)

/-- `Config.apply`: validate the dict projection; on success re-`update` with
the normalized result, on `SchemaError` leave the record as is and raise
`InvalidConfigurationException` with the joined reasons (note the source
misspells the message prefix as `configration`).  The `Option String`
component is the raised exception's message (`Option.none` = no exception). -/
def applyConfig (engine : Engine) (slots : List String) (fs : Fields) :
    Fields × Option String :=
  match engine (dictProjection slots fs) with
  | Except.ok normalized => (update slots fs (optionsOfDict normalized), Option.none)
  | Except.error autos =>
      (fs, some ("Failed to validate configration: " ++ String.intercalate ", " autos))

/-- `Config.from_options`: construct a fresh record (running `__init__`),
`update` it with the options, then `apply`.  Returns the mutated class state,
the resulting fields and the raised exception message, if any. -/
def from_options (engine : Engine) (mro : List String) (st : ClassState)
    (options : Options) : ClassState × Fields × Option String :=
  let st2 := configInit mro st
  let slots := st2 (mro.headD "")
  let fs1 := update slots emptyFields options
  let res := applyConfig engine slots fs1
  (st2, res.1, res.2)

/-! ### Concrete test fixtures -/

/-- Fresh declared `__slots__` for a three-level chain `A` extends `Config`,
`B` extends `A`, `C` extends `B`, declaring the disjoint field sets
`{a}`, `{b}`, `{c}` respectively, before any instance is constructed. -/
def stABC : ClassState := fun c =>
  if c = "C" then ["c"]
  else if c = "B" then ["b"]
  else if c = "A" then ["a"]
  else []

/-- `inspect.getmro(C)` restricted to the classes carrying `__slots__`
(`object` has none). -/
def mroC : List String := ["C", "B", "A", "Config"]

/-! ### Characterization of `update` -/

/-- The value `update` would write for key `k`, if any: the option value when
it is present and not `None`. -/
def updateValue (options : Options) (k : String) : Option PyVal :=
  match options k with
  | some v => if v.isNone then Option.none else some v
  | Option.none => Option.none

theorem update_cons (options : Options) (s : String) (rest : List String)
    (fs : Fields) :
    update (s :: rest) fs options = update rest (updateSlot options fs s) options :=
  rfl

theorem updateSlot_apply (options : Options) (fs : Fields) (s k : String) :
    updateSlot options fs s k =
      if k = s ∧ (updateValue options s).isSome then updateValue options s
      else fs k := by
  unfold updateSlot updateValue
  cases h : options s with
  | none => simp
  | some v =>
    by_cases hv : v.isNone
    · simp [hv]
    · by_cases hk : k = s <;> simp [hv, hk]

theorem update_apply (slots : List String) (options : Options) (k : String) :
    ∀ fs : Fields,
      update slots fs options k =
        if k ∈ slots ∧ (updateValue options k).isSome then updateValue options k
        else fs k := by
  induction slots with
  | nil => intro fs; simp [update]
  | cons s rest ih =>
    intro fs
    rw [update_cons, ih, updateSlot_apply]
    by_cases hmem : k ∈ rest
    · by_cases hsome : (updateValue options k).isSome
      · simp [hmem, hsome]
      · by_cases hks : k = s
        · subst hks; simp [hmem, hsome]
        · simp [hmem, hsome, hks]
    · by_cases hks : k = s
      · subst hks
        by_cases hsome : (updateValue options k).isSome <;> simp [hmem, hsome]
      · simp [hmem, hks]

/-! ### C1, C2: field-registry resolution -/

/-- C1 counterexample: for the fresh three-level chain `A`/`B`/`C` declaring
`{a}`/`{b}`/`{c}`, constructing the first `C` instance sets `C.__slots__` to
`["c", "b", "a", "c"]` — most-derived-first (MRO order) and with `c`
duplicated — not to the claimed ancestor-first, duplicate-free
`["a", "b", "c"]`. -/
theorem c1_counterexample :
    configInit mroC stABC "C" = ["c", "b", "a", "c"] ∧
    configInit mroC stABC "C" ≠ ["a", "b", "c"] ∧
    ¬ (configInit mroC stABC "C").Nodup := by
  refine ⟨rfl, by decide, by decide⟩

/-- C1 (amended): constructing the first instance of `C` yields the field
registry `["c", "b", "a", "c"]`: the current slots of every class in MRO
order (most derived first: c, b, a) followed by a second copy of `C`'s own
declared names; as a set it is exactly `{a, b, c}`. -/
theorem c1_registry_contents :
    configInit mroC stABC "C" = ["c", "b", "a", "c"] ∧
    (configInit mroC stABC "C").toFinset = ({"a", "b", "c"} : Finset String) := by
  exact ⟨rfl, by decide⟩

/-- C2 counterexample: constructing a second instance of `C` does not leave
`C.__slots__` unchanged — `__init__` recomputes the concatenation on every
construction, so the list grows from 4 entries to 10. -/
theorem c2_counterexample :
    configInit mroC (configInit mroC stABC) "C" ≠ configInit mroC stABC "C" := by
  decide

/-- C2 (amended): the registry is recomputed on every construction —
`__init__` always rebinds the concrete class's slots to the concatenation of
the current slots of every MRO class followed by the concrete class's own
current slots — so repeated construction grows the list (4 entries after the
first `C()`, 10 after the second), while the *set* of names stays fixed. -/
theorem c2_registry_recomputed :
    (∀ (self : String) (rest : List String) (st : ClassState),
        configInit (self :: rest) st self =
          ((self :: rest).map st).flatten ++ st self) ∧
    (configInit mroC stABC "C").length = 4 ∧
    (configInit mroC (configInit mroC stABC) "C").length = 10 ∧
    (configInit mroC (configInit mroC stABC) "C").toFinset =
      (configInit mroC stABC "C").toFinset := by
  refine ⟨fun self rest st => by simp [configInit], rfl, rfl, by decide⟩

/-! ### C3, C8, C9, C10: update, field access -/

/-- A record whose field `x` holds the string `"v1"`. -/
def fsX : Fields := fun n => if n = "x" then some (PyVal.pystr "v1") else Option.none

/-- Options mapping `x` to the string `"v2"` only. -/
def optsV2 : Options := fun k => if k = "x" then some (PyVal.pystr "v2") else Option.none

/-- C3: `update` assigns `options[k]` to field `k` exactly when `k` is in the
record's slots, `k` is a key of the options and its value is not `None`
(overwriting the previous value); every other field keeps its value, and
option keys outside the slots are ignored.  Concretely: with `x = "v1"`,
updating with `{x: None}` or `{}` leaves `"v1"`, updating with `{x: "v2"}`
yields `"v2"`. -/
theorem c3_update_characterization :
    (∀ (slots : List String) (fs : Fields) (options : Options) (k : String) (v : PyVal),
        k ∈ slots → options k = some v → v.isNone = false →
        update slots fs options k = some v) ∧
    (∀ (slots : List String) (fs : Fields) (options : Options) (k : String),
        k ∉ slots → update slots fs options k = fs k) ∧
    (∀ (slots : List String) (fs : Fields) (options : Options) (k : String),
        options k = Option.none → update slots fs options k = fs k) ∧
    (∀ (slots : List String) (fs : Fields) (options : Options) (k : String),
        options k = some PyVal.pynone → update slots fs options k = fs k) ∧
    update ["x"] fsX (fun k => if k = "x" then some PyVal.pynone else Option.none) "x"
      = some (PyVal.pystr "v1") ∧
    update ["x"] fsX (fun _ => Option.none) "x" = some (PyVal.pystr "v1") ∧
    update ["x"] fsX optsV2 "x" = some (PyVal.pystr "v2") := by
  refine ⟨?_, ?_, ?_, ?_, rfl, rfl, rfl⟩
  · intro slots fs options k v hk ho hv
    rw [update_apply]
    simp [hk, updateValue, ho, hv]
  · intro slots fs options k hk
    rw [update_apply]; simp [hk]
  · intro slots fs options k ho
    rw [update_apply]; simp [updateValue, ho]
  · intro slots fs options k ho
    rw [update_apply]; simp [updateValue, ho, PyVal.isNone]

/-- Witness for C3 at concrete inputs. -/
theorem c3_update_characterization_witness :
    ("x" ∈ ["x", "y"] ∧ optsV2 "x" = some (PyVal.pystr "v2") ∧
      (PyVal.pystr "v2").isNone = false ∧
      update ["x", "y"] fsX optsV2 "x" = some (PyVal.pystr "v2")) ∧
    ("z" ∉ (["x", "y"] : List String) ∧ update ["x", "y"] fsX optsV2 "z" = fsX "z") :=
  ⟨⟨by decide, rfl, rfl,
      c3_update_characterization.1 ["x", "y"] fsX optsV2 "x" (PyVal.pystr "v2")
        (by decide) rfl rfl⟩,
   ⟨by decide,
      c3_update_characterization.2.1 ["x", "y"] fsX optsV2 "z" (by decide)⟩⟩

/-- C8: `update` is idempotent — applying the same options twice equals
applying them once — and it never unsets a previously set field. -/
theorem c8_update_idempotent :
    (∀ (slots : List String) (fs : Fields) (options : Options),
        update slots (update slots fs options) options = update slots fs options) ∧
    (∀ (slots : List String) (fs : Fields) (options : Options) (k : String) (w : PyVal),
        fs k = some w → (update slots fs options k).isSome) := by
  constructor
  · intro slots fs options
    funext n
    rw [update_apply, update_apply]
    by_cases h : n ∈ slots ∧ (updateValue options n).isSome
    · simp [h]
    · simp [h]
  · intro slots fs options k w hw
    rw [update_apply]
    by_cases h : k ∈ slots ∧ (updateValue options k).isSome
    · simp [h, h.2]
    · simp [h, hw]

/-- Witness for C8 at concrete inputs. -/
theorem c8_update_idempotent_witness :
    fsX "x" = some (PyVal.pystr "v1") ∧
    (update ["x"] fsX (fun _ => Option.none) "x").isSome :=
  ⟨rfl, c8_update_idempotent.2 ["x"] fsX (fun _ => Option.none) "x"
    (PyVal.pystr "v1") rfl⟩

/-- C9: the emptiness predicate is exactly `is None`: an option value is
skipped by `update` iff it is `None`, so empty strings, zero and empty
collections are copied, and the dict projection keeps them (omitting only
`None`-valued/unset slots). -/
theorem c9_emptiness_is_pynone :
    (∀ (slots : List String) (fs : Fields) (options : Options) (k : String) (v : PyVal),
        k ∈ slots → options k = some v →
        update slots fs options k = (if v.isNone then fs k else some v)) ∧
    (PyVal.pystr "").isNone = false ∧
    (PyVal.pyint 0).isNone = false ∧
    (PyVal.pylist []).isNone = false ∧
    PyVal.pynone.isNone = true ∧
    update ["x"] emptyFields
        (fun k => if k = "x" then some (PyVal.pystr "") else Option.none) "x"
      = some (PyVal.pystr "") ∧
    update ["x"] emptyFields
        (fun k => if k = "x" then some (PyVal.pyint 0) else Option.none) "x"
      = some (PyVal.pyint 0) ∧
    update ["x"] emptyFields
        (fun k => if k = "x" then some (PyVal.pylist []) else Option.none) "x"
      = some (PyVal.pylist []) ∧
    update ["x"] emptyFields
        (fun k => if k = "x" then some PyVal.pynone else Option.none) "x"
      = Option.none ∧
    dictProjection ["x"] (fun k => if k = "x" then some (PyVal.pystr "") else Option.none)
      = [("x", PyVal.pystr "")] ∧
    dictProjection ["x"] (fun k => if k = "x" then some (PyVal.pyint 0) else Option.none)
      = [("x", PyVal.pyint 0)] ∧
    dictProjection ["x"] (fun k => if k = "x" then some PyVal.pynone else Option.none)
      = [] := by
  refine ⟨?_, rfl, rfl, rfl, rfl, rfl, rfl, rfl, rfl, rfl, rfl, rfl⟩
  intro slots fs options k v hk ho
  rw [update_apply]
  by_cases hv : v.isNone
  · simp [hk, updateValue, ho, hv]
  · simp [hk, updateValue, ho, hv]

/-- Witness for C9 at concrete inputs. -/
theorem c9_emptiness_is_pynone_witness :
    ("x" ∈ ["x"] ∧ optsV2 "x" = some (PyVal.pystr "v2") ∧
      update ["x"] emptyFields optsV2 "x"
        = (if (PyVal.pystr "v2").isNone then emptyFields "x"
           else some (PyVal.pystr "v2"))) :=
  ⟨by decide, rfl,
    c9_emptiness_is_pynone.1 ["x"] emptyFields optsV2 "x" (PyVal.pystr "v2")
      (by decide) rfl⟩

/-- C10: `__getitem__` is total: it returns the stored value when the field
is set and Python `None` otherwise — for declared-but-unset fields and for
names never declared alike — never raising. -/
theorem c10_getitem_total :
    (∀ (fs : Fields) (name : String) (v : PyVal),
        fs name = some v → getitem fs name = v) ∧
    (∀ (fs : Fields) (name : String),
        fs name = Option.none → getitem fs name = PyVal.pynone) ∧
    getitem fsX "x" = PyVal.pystr "v1" ∧
    getitem emptyFields "x" = PyVal.pynone ∧
    getitem fsX "never_declared" = PyVal.pynone := by
  refine ⟨?_, ?_, rfl, rfl, rfl⟩
  · intro fs name v h; simp [getitem, h]
  · intro fs name h; simp [getitem, h]

/-- Witness for C10 at concrete inputs. -/
theorem c10_getitem_total_witness :
    (fsX "x" = some (PyVal.pystr "v1") ∧ getitem fsX "x" = PyVal.pystr "v1") ∧
    (fsX "y" = Option.none ∧ getitem fsX "y" = PyVal.pynone) :=
  ⟨⟨rfl, c10_getitem_total.1 fsX "x" (PyVal.pystr "v1") rfl⟩,
   ⟨rfl, c10_getitem_total.2.1 fsX "y" rfl⟩⟩

/-! ### C6: dict projection -/

/-- First-occurrence key dedup: Python's `dict(pairs)` keeps the position of
each key's first insertion (later duplicates only rewrite the value, which
here is always the same slot value). -/
def dedupKeysAux : List (String × PyVal) → List String → List (String × PyVal)
  | [], _ => []
  | p :: ps, seen =>
      if p.1 ∈ seen then dedupKeysAux ps seen
      else p :: dedupKeysAux ps (p.1 :: seen)

/-- The value the dict projection records for a slot, if any: the stored
value when it is set and not `None`. -/
def dictValue (fs : Fields) (k : String) : Option PyVal :=
  match fs k with
  | some v => if v.isNone then Option.none else some v
  | Option.none => Option.none

theorem dictGenList_eq (slots : List String) (fs : Fields) :
    dictGenList slots fs =
      slots.filterMap (fun slot => Option.map (fun v => (slot, v)) (dictValue fs slot)) := by
  unfold dictGenList
  apply List.filterMap_congr
  intro s _
  show (match fs s with
        | some v => if v.isNone then Option.none else some (s, v)
        | Option.none => Option.none)
      = Option.map (fun v => (s, v)) (dictValue fs s)
  unfold dictValue
  cases fs s with
  | none => rfl
  | some w => by_cases hw : w.isNone <;> simp [hw]

theorem dictValue_eq_some (fs : Fields) (k : String) (v : PyVal) :
    dictValue fs k = some v ↔ fs k = some v ∧ v.isNone = false := by
  unfold dictValue
  cases hf : fs k with
  | none => simp
  | some w =>
    by_cases hw : w.isNone
    · simp only [if_pos hw]
      constructor
      · intro h; exact absurd h (by simp)
      · rintro ⟨h1, h2⟩
        rw [Option.some.inj h1] at hw
        rw [hw] at h2
        cases h2
    · simp only [if_neg hw]
      constructor
      · intro h
        have := Option.some.inj h
        subst this
        exact ⟨rfl, by simpa using hw⟩
      · rintro ⟨h1, _⟩
        rw [Option.some.inj h1]

theorem mem_dictGenList (slots : List String) (fs : Fields) (k : String) (v : PyVal) :
    (k, v) ∈ dictGenList slots fs ↔ k ∈ slots ∧ fs k = some v ∧ v.isNone = false := by
  rw [dictGenList_eq, List.mem_filterMap]
  constructor
  · rintro ⟨s, hs, hg⟩
    simp only [Option.map_eq_some'] at hg
    obtain ⟨a, ha, hav⟩ := hg
    injection hav with h1 h2
    subst h1; subst h2
    exact ⟨hs, (dictValue_eq_some _ _ _).1 ha⟩
  · rintro ⟨hs, hf, hv⟩
    refine ⟨k, hs, ?_⟩
    simp only [Option.map_eq_some']
    exact ⟨v, (dictValue_eq_some fs k v).2 ⟨hf, hv⟩, rfl⟩

theorem dictGenList_pair (slots : List String) (fs : Fields) :
    ∀ p ∈ dictGenList slots fs, dictValue fs p.1 = some p.2 := by
  rintro ⟨k, v⟩ hp
  obtain ⟨hs, hf, hv⟩ := (mem_dictGenList slots fs k v).1 hp
  simp [dictValue, hf, hv]

theorem dedupKeysAux_seen_congr :
    ∀ (l : List (String × PyVal)) (s1 s2 : List String),
      (∀ x, x ∈ s1 ↔ x ∈ s2) → dedupKeysAux l s1 = dedupKeysAux l s2 := by
  intro l
  induction l with
  | nil => intro s1 s2 _; rfl
  | cons p ps ih =>
    intro s1 s2 h
    by_cases hp : p.1 ∈ s1
    · rw [dedupKeysAux, dedupKeysAux, if_pos hp, if_pos ((h p.1).1 hp)]
      exact ih s1 s2 h
    · rw [dedupKeysAux, dedupKeysAux, if_neg hp, if_neg (fun hc => hp ((h p.1).2 hc))]
      rw [ih (p.1 :: s1) (p.1 :: s2) (by intro x; simp [h x])]

/-- Folding Python dict insertion over pairs whose value is determined by
their key extends the accumulator with the first-occurrence dedup of the
remaining pairs. -/
theorem foldl_dictInsert_eq (f : String → Option PyVal) :
    ∀ (l : List (String × PyVal)) (d0 : List (String × PyVal)),
      (∀ p ∈ l, f p.1 = some p.2) → (∀ p ∈ d0, f p.1 = some p.2) →
      l.foldl (fun d p => dictInsert d p.1 p.2) d0 =
        d0 ++ dedupKeysAux l (d0.map Prod.fst) := by
  intro l
  induction l with
  | nil => intro d0 _ _; simp [dedupKeysAux]
  | cons p ps ih =>
    intro d0 hl hd
    rw [List.foldl_cons]
    by_cases hp : p.1 ∈ d0.map Prod.fst
    · have hins : dictInsert d0 p.1 p.2 = d0 := by
        rw [dictInsert, if_pos]
        · have hfix : ∀ q ∈ d0, (if q.1 = p.1 then (p.1, p.2) else q) = q := by
            rintro ⟨a, b⟩ hq
            by_cases ha : a = p.1
            · have h1 : f a = some b := hd (a, b) hq
              have h2 : f p.1 = some p.2 := hl p (List.mem_cons_self p ps)
              rw [ha] at h1
              have hb : p.2 = b := Option.some.inj (h2.symm.trans h1)
              simp [ha, hb]
            · simp [ha]
          exact (List.map_congr_left hfix).trans (List.map_id d0)
        · obtain ⟨q, hq, hq1⟩ := List.mem_map.1 hp
          exact List.any_eq_true.2 ⟨q, hq, by simp [hq1]⟩
      rw [hins, ih d0 (fun q hq => hl q (List.mem_cons_of_mem p hq)) hd]
      rw [dedupKeysAux, if_pos hp]
    · have hins : dictInsert d0 p.1 p.2 = d0 ++ [(p.1, p.2)] := by
        rw [dictInsert, if_neg]
        intro hc
        obtain ⟨q, hq, hq1⟩ := List.any_eq_true.1 hc
        exact hp (List.mem_map.2 ⟨q, hq, of_decide_eq_true hq1⟩)
      rw [hins]
      rw [ih (d0 ++ [(p.1, p.2)])
            (fun q hq => hl q (List.mem_cons_of_mem p hq))
            (by
              intro q hq
              rcases List.mem_append.1 hq with h | h
              · exact hd q h
              · rw [List.mem_singleton.1 h]
                exact hl p (List.mem_cons_self p ps))]
      rw [dedupKeysAux, if_neg hp]
      have hseen : dedupKeysAux ps ((d0 ++ [(p.1, p.2)]).map Prod.fst) =
          dedupKeysAux ps (p.1 :: d0.map Prod.fst) := by
        apply dedupKeysAux_seen_congr
        intro x; simp [or_comm]
      rw [hseen, List.append_assoc]
      rfl

theorem dictProjection_eq_dedup (slots : List String) (fs : Fields) :
    dictProjection slots fs = dedupKeysAux (dictGenList slots fs) [] := by
  have := foldl_dictInsert_eq (dictValue fs) (dictGenList slots fs) []
    (dictGenList_pair slots fs) (by intro p hp; exact absurd hp (List.not_mem_nil p))
  simpa [dictProjection, pyDict] using this

theorem dedupKeysAux_subset :
    ∀ (l : List (String × PyVal)) (seen : List String) (p : String × PyVal),
      p ∈ dedupKeysAux l seen → p ∈ l := by
  intro l
  induction l with
  | nil => intro seen p h; exact absurd h (List.not_mem_nil p)
  | cons q qs ih =>
    intro seen p h
    by_cases hq : q.1 ∈ seen
    · rw [dedupKeysAux, if_pos hq] at h
      exact List.mem_cons_of_mem q (ih seen p h)
    · rw [dedupKeysAux, if_neg hq] at h
      rcases List.mem_cons.1 h with h | h
      · rw [h]; exact List.mem_cons_self q qs
      · exact List.mem_cons_of_mem q (ih (q.1 :: seen) p h)

theorem dedupKeysAux_mem_key :
    ∀ (l : List (String × PyVal)) (seen : List String) (p : String × PyVal),
      p ∈ l → p.1 ∉ seen → ∃ q ∈ dedupKeysAux l seen, q.1 = p.1 := by
  intro l
  induction l with
  | nil => intro seen p h _; exact absurd h (List.not_mem_nil p)
  | cons r rs ih =>
    intro seen p hp hseen
    by_cases hr : r.1 ∈ seen
    · rw [dedupKeysAux, if_pos hr]
      rcases List.mem_cons.1 hp with h | h
      · subst h; exact absurd hr hseen
      · exact ih seen p h hseen
    · rw [dedupKeysAux, if_neg hr]
      rcases List.mem_cons.1 hp with h | h
      · exact ⟨r, List.mem_cons_self _ _, by rw [h]⟩
      · by_cases hpr : p.1 = r.1
        · exact ⟨r, List.mem_cons_self _ _, hpr.symm⟩
        · obtain ⟨q, hq, hq1⟩ := ih (r.1 :: seen) p h (by simp [hpr, hseen])
          exact ⟨q, List.mem_cons_of_mem r hq, hq1⟩

/-- C6: the dict projection is the insertion-ordered mapping whose entries
are exactly the slot names currently holding a non-`None` value, one entry
per name at its first occurrence in the slots tuple; concretely, a record
with slots `{a, b}` where only `a` is set projects to `[("a", _)]`. -/
theorem c6_dict_projection :
    (∀ (slots : List String) (fs : Fields),
        dictProjection slots fs = dedupKeysAux (dictGenList slots fs) []) ∧
    (∀ (slots : List String) (fs : Fields) (k : String) (v : PyVal),
        (k, v) ∈ dictProjection slots fs ↔
          k ∈ slots ∧ fs k = some v ∧ v.isNone = false) ∧
    dictProjection ["a", "b"]
        (fun k => if k = "a" then some (PyVal.pystr "av") else Option.none)
      = [("a", PyVal.pystr "av")] := by
  refine ⟨dictProjection_eq_dedup, ?_, rfl⟩
  intro slots fs k v
  rw [dictProjection_eq_dedup]
  constructor
  · intro h
    exact (mem_dictGenList slots fs k v).1 (dedupKeysAux_subset _ [] _ h)
  · intro h
    obtain ⟨q, hq, hq1⟩ :=
      dedupKeysAux_mem_key (dictGenList slots fs) [] (k, v)
        ((mem_dictGenList slots fs k v).2 h) (List.not_mem_nil k)
    have hqv : dictValue fs q.1 = some q.2 :=
      dictGenList_pair slots fs q (dedupKeysAux_subset _ [] _ hq)
    have hkv : dictValue fs k = some v :=
      (dictValue_eq_some fs k v).2 ⟨h.2.1, h.2.2⟩
    rw [hq1] at hqv
    have hq2 : q.2 = v := Option.some.inj (hqv.symm.trans hkv)
    have hqkv : q = (k, v) := by
      obtain ⟨a, b⟩ := q
      simp only at hq1 hq2
      rw [hq1, hq2]
    rw [hqkv] at hq
    exact hq

/-! ### C4, C5, C7: apply and from_options -/

/-- An engine that rejects every candidate mapping with one reason. -/
def engineReject : Engine := fun _ => Except.error ["bad"]

/-- An engine that reports two reasons on every candidate mapping. -/
def engineTwoReasons : Engine := fun _ => Except.error ["reason one", "reason two"]

/-- Modelled from the spec: the external schema engine for a schema
declaring `port` required — rejects any candidate mapping lacking `port`. -/
def enginePortRequired : Engine := fun d =>
  if d.any (fun p => p.1 = "port") then Except.ok d
  else Except.error ["Missing key: port"]

/-- Modelled from the spec: the external schema engine for a schema
declaring `timeout` optional with default `30` — adds the default when the
candidate mapping lacks `timeout`. -/
def engineTimeoutDefault : Engine := fun d =>
  if d.any (fun p => p.1 = "timeout") then Except.ok d
  else Except.ok (d ++ [("timeout", PyVal.pyint 30)])

/-- Declared slots for a class `Server` extending `Config` with the single
field `port`. -/
def stServer : ClassState := fun c => if c = "Server" then ["port"] else []

/-- `inspect.getmro(Server)` restricted to classes carrying `__slots__`. -/
def mroServer : List String := ["Server", "Config"]

/-- Declared slots for a class `Client` extending `Config` with the single
field `timeout`. -/
def stClient : ClassState := fun c => if c = "Client" then ["timeout"] else []

/-- `inspect.getmro(Client)` restricted to classes carrying `__slots__`. -/
def mroClient : List String := ["Client", "Config"]

/-- C4: when the engine rejects the projected state, `apply` raises the
Invalid Configuration failure and performs no field assignment — the record's
fields are exactly the pre-call fields, and the record is only updated (with
the normalized mapping) after successful validation. -/
theorem c4_apply_failure_preserves_fields :
    (∀ (engine : Engine) (slots : List String) (fs : Fields) (autos : List String),
        engine (dictProjection slots fs) = Except.error autos →
        applyConfig engine slots fs =
          (fs, some ("Failed to validate configration: " ++
            String.intercalate ", " autos))) ∧
    (∀ (engine : Engine) (slots : List String) (fs : Fields) (d : List (String × PyVal)),
        engine (dictProjection slots fs) = Except.ok d →
        applyConfig engine slots fs =
          (update slots fs (optionsOfDict d), Option.none)) := by
  constructor
  · intro engine slots fs autos h
    simp [applyConfig, h]
  · intro engine slots fs d h
    simp [applyConfig, h]

/-- Witness for C4 at concrete inputs. -/
theorem c4_apply_failure_preserves_fields_witness :
    engineReject (dictProjection ["x"] fsX) = Except.error ["bad"] ∧
    applyConfig engineReject ["x"] fsX =
      (fsX, some ("Failed to validate configration: " ++
        String.intercalate ", " ["bad"])) :=
  ⟨rfl, c4_apply_failure_preserves_fields.1 engineReject ["x"] fsX ["bad"] rfl⟩

/-- C5 counterexample: the claim states the message prefix
`"Failed to validate configuration: "`, but the source misspells it as
`"Failed to validate configration: "`, so with engine reasons
`["reason one", "reason two"]` the raised message differs from the claimed
one. -/
theorem c5_counterexample :
    (applyConfig engineTwoReasons [] emptyFields).2 =
      some "Failed to validate configration: reason one, reason two" ∧
    (applyConfig engineTwoReasons [] emptyFields).2 ≠
      some "Failed to validate configuration: reason one, reason two" := by
  refine ⟨rfl, by decide⟩

/-- C5 (amended): `apply` raises iff the engine reports violations, the
message is the prefix `"Failed to validate configration: "` (sic, as the
source misspells `configuration`) followed by the engine's reason strings
joined with `", "`; with `port` required and absent, the message contains a
reason referencing `port`. -/
theorem c5_exception_message :
    (∀ (engine : Engine) (slots : List String) (fs : Fields),
        (applyConfig engine slots fs).2.isSome ↔
          ∃ autos, engine (dictProjection slots fs) = Except.error autos) ∧
    (∀ (engine : Engine) (slots : List String) (fs : Fields) (autos : List String),
        engine (dictProjection slots fs) = Except.error autos →
        (applyConfig engine slots fs).2 =
          some ("Failed to validate configration: " ++
            String.intercalate ", " autos)) ∧
    (from_options enginePortRequired mroServer stServer (fun _ => Option.none)).2.2 =
      some ("Failed to validate configration: " ++ "Missing key: " ++ "port") := by
  refine ⟨?_, ?_, rfl⟩
  · intro engine slots fs
    unfold applyConfig
    cases h : engine (dictProjection slots fs) with
    | ok d => simp [h]
    | error autos => simp [h]
  · intro engine slots fs autos h
    simp [applyConfig, h]

/-- Witness for C5 at concrete inputs. -/
theorem c5_exception_message_witness :
    engineReject (dictProjection [] emptyFields) = Except.error ["bad"] ∧
    (applyConfig engineReject [] emptyFields).2 =
      some ("Failed to validate configration: " ++ String.intercalate ", " ["bad"]) :=
  ⟨rfl, c5_exception_message.2.1 engineReject [] emptyFields ["bad"] rfl⟩

/-- C7: `from_options` constructs a new record (running `__init__`), updates
it with the options, then applies, returning the resulting record and
propagating any Invalid Configuration failure; with a schema declaring
`timeout` defaulted to `30` and options lacking `timeout`, the returned
record has `timeout == 30` and no failure. -/
theorem c7_from_options :
    (∀ (engine : Engine) (mro : List String) (st : ClassState) (options : Options),
        from_options engine mro st options =
          (configInit mro st,
           (applyConfig engine (configInit mro st (mro.headD ""))
              (update (configInit mro st (mro.headD "")) emptyFields options)).1,
           (applyConfig engine (configInit mro st (mro.headD ""))
              (update (configInit mro st (mro.headD "")) emptyFields options)).2)) ∧
    (∀ (engine : Engine) (mro : List String) (st : ClassState) (options : Options)
        (m : String),
        (applyConfig engine (configInit mro st (mro.headD ""))
            (update (configInit mro st (mro.headD "")) emptyFields options)).2 = some m →
        (from_options engine mro st options).2.2 = some m) ∧
    (from_options engineTimeoutDefault mroClient stClient (fun _ => Option.none)).2.1
        "timeout" = some (PyVal.pyint 30) ∧
    (from_options engineTimeoutDefault mroClient stClient (fun _ => Option.none)).2.2
      = Option.none := by
  refine ⟨fun engine mro st options => rfl, ?_, rfl, rfl⟩
  intro engine mro st options m h
  exact h

/-- Witness for C7 at concrete inputs. -/
theorem c7_from_options_witness :
    (applyConfig engineReject (configInit mroServer stServer (mroServer.headD ""))
        (update (configInit mroServer stServer (mroServer.headD ""))
          emptyFields (fun _ => Option.none))).2 =
      some ("Failed to validate configration: " ++ String.intercalate ", " ["bad"]) ∧
    (from_options engineReject mroServer stServer (fun _ => Option.none)).2.2 =
      some ("Failed to validate configration: " ++ String.intercalate ", " ["bad"]) :=
  ⟨rfl, c7_from_options.2.1 engineReject mroServer stServer (fun _ => Option.none)
    ("Failed to validate configration: " ++ String.intercalate ", " ["bad"]) rfl⟩

end AgentCore
